import Mathlib

set_option maxHeartbeats 1000000

/-! Shallow embedding of the wgs-kmers core (`src/wgskmers`) in Lean 4.

Sequences are `List Char`, numpy boolean vectors are `List Bool`,
coordinate arrays are `List ℕ`, and numpy floating arithmetic is
modelled exactly over `ℚ`.  CPython `str.find` slice-clamping
semantics is modelled by `pyFind`; Python `while` loops are translated
with an explicit fuel argument that provably suffices. -/

/-- The four DNA nucleotides, `sorted('ACGT')` (kmers.py line 24). -/
def nucleotides : List Char := ['A', 'C', 'G', 'T']

/-- Dict mapping each nucleotide to its index in `nucleotides`
(kmers.py line 27); `none` models a Python `KeyError`. -/
def nucleotide_indices (c : Char) : Option ℕ :=
  if c = 'A' then some 0
  else if c = 'C' then some 1
  else if c = 'G' then some 2
  else if c = 'T' then some 3
  else none

/-- `kmer_index` (kmers.py 45-59): reads the k-mer left to right as a
base-4 number (`index <<= 2; index += nucleotide_indices[nuc]`);
a symbol outside the dict raises `KeyError`, modelled by `none`. -/
def kmer_index (kmer : List Char) : Option ℕ :=
  kmer.foldlM (fun index nuc => (nucleotide_indices nuc).map (fun v => index * 4 + v)) 0

/-- Loop of `kmer_at_index` (kmers.py 72-75): the list `nucs_reversed`
of base-4 digits of `index`, least significant first. -/
def kmer_digits_rev : ℕ → ℕ → List Char
  | _, 0 => []
  | index, k + 1 => nucleotides.getD (index % 4) 'A' :: kmer_digits_rev (index / 4) k

/-- `kmer_at_index` (kmers.py 62-76). -/
def kmer_at_index (index k : ℕ) : List Char :=
  (kmer_digits_rev index k).reverse

/-- Watson-Crick complement of one (upper-case) nucleotide, as computed
by `Bio.Seq.Seq.reverse_complement`; on the claims' inputs only the
four ACGT cases are ever evaluated. -/
def complement_char (c : Char) : Char :=
  if c = 'A' then 'T'
  else if c = 'T' then 'A'
  else if c = 'C' then 'G'
  else if c = 'G' then 'C'
  else c

/-- `reverse_compliment` (kmers.py 30-42). -/
def reverse_compliment (seq : List Char) : List Char :=
  (seq.map complement_char).reverse

/-- Python slice `l[a:b]` for non-negative bounds (clamped). -/
def pySlice {α : Type} (l : List α) (a b : ℕ) : List α :=
  (l.take b).drop a

/-- Python slice `l[-j:]` (for `j ≥ 1` the last `j` items, clamped;
`j = 0` gives the whole list, as in Python `l[-0:] = l[0:]`). -/
def pyTailSlice {α : Type} (l : List α) (j : ℕ) : List α :=
  if j = 0 then l else l.drop (l.length - j)

/-- Python `min` over a sequence; `none` models the `ValueError` on an
empty sequence. -/
def pyMin : List ℕ → Option ℕ
  | [] => none
  | x :: xs => some (xs.foldl min x)

/-- Inner condition of CPython `str.find(sub, start, end)`: `sub`
occurs at `p` and the occurrence lies entirely below the adjusted end
bound (a negative `end` counts from the end of the string, clamped at
0; a positive one is clamped at the length). -/
def pyCond (s sub : List Char) (endI : ℤ) (p : ℕ) : Prop :=
  p + sub.length ≤ (if endI < 0 then s.length - (-endI).toNat else min endI.toNat s.length) ∧
    (s.drop p).take sub.length = sub

instance (s sub : List Char) (endI : ℤ) (p : ℕ) : Decidable (pyCond s sub endI p) := by
  unfold pyCond
  infer_instance

/-- CPython `str.find(sub, start, end)` for a non-negative `start`:
the least matching position, or `none` for the return value `-1`. -/
def pyFind (s sub : List Char) (start : ℕ) (endI : ℤ) : Option ℕ :=
  ((List.range (s.length + 1)).filter (fun p => decide (start ≤ p ∧ pyCond s sub endI p))).head?

/-- while-loop of `locate_kmers` (kmers.py 90-98), with fuel. -/
def locate_loop (seq pfx : List Char) (endI : ℤ) : ℕ → ℕ → List ℕ
  | 0, _ => []
  | fuel + 1, start =>
    match pyFind seq pfx start endI with
    | some p => p :: locate_loop seq pfx endI fuel (p + 1)
    | none => []

/-- `locate_kmers` (kmers.py 79-98): `start = 0`, `end = len(seq) - k`.
The fuel `len(seq) + 1` suffices because the cursor `start` strictly
increases and found positions never exceed `len(seq)`. -/
def locate_kmers (seq : List Char) (k : ℕ) (pfx : List Char) : List ℕ :=
  locate_loop seq pfx ((seq.length : ℤ) - (k : ℤ)) (seq.length + 1) 0

/-- `KmerSpec` (kmers.py 136-162); `pfx` models the attribute
`prefix`. -/
structure KmerSpec where
  k : ℕ
  pfx : List Char
deriving DecidableEq

/-- `KmerSpec.__init__` (kmers.py 152-162): the prefix is upper-cased. -/
def KmerSpec.init (k : ℕ) (pfx0 : List Char) : KmerSpec :=
  { k := k, pfx := pfx0.map Char.toUpper }

/-- Attribute `plen` set by `KmerSpec.__init__`. -/
def KmerSpec.plen (s : KmerSpec) : ℕ := s.pfx.length

/-- Attribute `k_sfx` set by `KmerSpec.__init__`. -/
def KmerSpec.k_sfx (s : KmerSpec) : ℕ := s.k - s.plen

/-- Attribute `idx_len` set by `KmerSpec.__init__`: `4 ** k_sfx`. -/
def KmerSpec.idx_len (s : KmerSpec) : ℕ := 4 ^ s.k_sfx

/-- `KmerFinder` attributes (kmers.py 203-219). -/
structure KmerFinder where
  spec : KmerSpec
  seq : List Char
  seqlen : ℕ
  find_revcomp : Bool
  seq_circular : Bool
deriving DecidableEq

/-- `KmerFinder.__init__` (kmers.py 203-219); the Python signature is
`__init__(self, spec, seq, revcomp=False, circular=False)`. -/
def KmerFinder.init (spec : KmerSpec) (seq : List Char)
    (revcomp : Bool := false) (circular : Bool := false) : KmerFinder :=
  { spec := spec, seq := seq, seqlen := seq.length,
    find_revcomp := revcomp, seq_circular := circular }

/-- `KmerSpec.find` (kmers.py 164-175): forwards its kwargs unchanged
to `KmerFinder`, so an omitted flag falls through to the
`KmerFinder.__init__` default. -/
def KmerSpec.find (spec : KmerSpec) (seq : List Char)
    (revcomp : Bool := false) (circular : Bool := false) : KmerFinder :=
  KmerFinder.init spec seq revcomp circular

/-- One direction of `KmerFinder._get_kmers` (kmers.py 298-316): the
forward scan over `seq` followed, for circular sequences, by the scan
of the length-`2(k-1)` wrap window. -/
def scan_kmers (spec : KmerSpec) (seq : List Char) (circular : Bool) : List (List Char) :=
  let fwd := (locate_kmers seq spec.k spec.pfx).map
    (fun loc => pySlice seq (loc + spec.plen) (loc + spec.k))
  let wrap :=
    if circular then
      let wrap_seq := pyTailSlice seq (spec.k - 1) ++ seq.take (spec.k - 1)
      (locate_kmers wrap_seq spec.k spec.pfx).map
        (fun loc => pySlice wrap_seq (loc + spec.plen) (loc + spec.k))
    else []
  fwd ++ wrap

/-- `KmerFinder.get_kmers` (kmers.py 221-235): the forward pass, then
the reverse-complement pass when `find_revcomp` is set. -/
def KmerFinder.get_kmers (f : KmerFinder) : List (List Char) :=
  scan_kmers f.spec f.seq f.seq_circular ++
    (if f.find_revcomp then scan_kmers f.spec (reverse_compliment f.seq) f.seq_circular else [])

/-- `KmerFinder.get_indices` (kmers.py 237-245): keeps the k-mers all
of whose symbols are nucleotides and maps them through `kmer_index`. -/
def KmerFinder.get_indices (f : KmerFinder) : List ℕ :=
  f.get_kmers.filterMap
    (fun kmer => if kmer.all (fun c => nucleotides.contains c) then kmer_index kmer else none)

/-- One direction of `QualityKmerFinder._get_kmers` (kmers.py 349-375):
the same scan as `scan_kmers`, but a located k-mer is emitted only if
`min(qual[loc + plen : loc + k]) >= threshold`; note the slice starts
at `loc + plen`, not `loc`.  An empty slice (impossible for
`plen < k`) would raise in Python and is modelled by skipping. -/
def quality_scan (spec : KmerSpec) (seq : List Char) (qual : List ℕ)
    (threshold : ℕ) (circular : Bool) : List (List Char) :=
  let fwd := (locate_kmers seq spec.k spec.pfx).filterMap
    (fun loc =>
      match pyMin (pySlice qual (loc + spec.plen) (loc + spec.k)) with
      | some m => if threshold ≤ m then some (pySlice seq (loc + spec.plen) (loc + spec.k)) else none
      | none => none)
  let wrap :=
    if circular then
      let wrap_seq := pyTailSlice seq (spec.k - 1) ++ seq.take (spec.k - 1)
      let wrap_qual := pyTailSlice qual (spec.k - 1) ++ qual.take (spec.k - 1)
      (locate_kmers wrap_seq spec.k spec.pfx).filterMap
        (fun loc =>
          match pyMin (pySlice wrap_qual (loc + spec.plen) (loc + spec.k)) with
          | some m => if threshold ≤ m then some (pySlice wrap_seq (loc + spec.plen) (loc + spec.k)) else none
          | none => none)
    else []
  fwd ++ wrap

/-- `QualityKmerFinder._get_kmers` over both directions (kmers.py
319-375): the reverse-complement pass pairs `reverse_compliment(seq)`
with the reversed score array `quality[::-1]`. -/
def quality_get_kmers (spec : KmerSpec) (seq : List Char) (qual : List ℕ)
    (threshold : ℕ) (revcomp circular : Bool) : List (List Char) :=
  quality_scan spec seq qual threshold circular ++
    (if revcomp then quality_scan spec (reverse_compliment seq) qual.reverse threshold circular else [])

section KmerIndexRoundTrip

/-- Values in the nucleotide dict are below 4 and decode back to the
same symbol. -/
lemma nucleotide_indices_spec {c : Char} {v : ℕ} (h : nucleotide_indices c = some v) :
    v < 4 ∧ nucleotides.getD v 'A' = c := by
  unfold nucleotide_indices at h
  split_ifs at h with h1 h2 h3 h4
  · injection h with h0; subst h0; subst h1; exact ⟨by decide, by decide⟩
  · injection h with h0; subst h0; subst h2; exact ⟨by decide, by decide⟩
  · injection h with h0; subst h0; subst h3; exact ⟨by decide, by decide⟩
  · injection h with h0; subst h0; subst h4; exact ⟨by decide, by decide⟩

/-- Folding `kmer_index` over a final symbol. -/
lemma kmer_index_append_last (ys : List Char) (c : Char) (a : ℕ) :
    (ys ++ [c]).foldlM (fun index nuc => (nucleotide_indices nuc).map (fun v => index * 4 + v)) a =
      ((ys.foldlM (fun index nuc => (nucleotide_indices nuc).map (fun v => index * 4 + v)) a).bind
        (fun m => (nucleotide_indices c).map (fun v => m * 4 + v)) : Option ℕ) := by
  induction ys generalizing a with
  | nil => simp [List.foldlM]
  | cons y ys ih =>
    simp only [List.cons_append, List.foldlM_cons]
    cases hy : nucleotide_indices y with
    | none => simp [hy]
    | some v => simp [hy, ih]

/-- C5 core: decoding the base-4 encoding of a valid word returns the
word. -/
lemma kmer_round_trip_aux :
    ∀ (w : List Char) (n : ℕ), kmer_index w = some n → kmer_at_index n w.length = w := by
  intro w
  induction w using List.reverseRecOn with
  | nil =>
    intro n h
    simp [kmer_index, List.foldlM] at h
    simp [kmer_at_index, kmer_digits_rev]
  | append_singleton ys c ih =>
    intro n h
    unfold kmer_index at h
    rw [kmer_index_append_last] at h
    cases hys : ys.foldlM (fun index nuc => (nucleotide_indices nuc).map (fun v => index * 4 + v)) (0 : ℕ) with
    | none => rw [hys] at h; simp at h
    | some m =>
      rw [hys] at h
      cases hc : nucleotide_indices c with
      | none => rw [hc] at h; simp at h
      | some v =>
        rw [hc] at h
        simp only [Option.some_bind, Option.map_some', Option.some.injEq] at h
        obtain ⟨hv4, hvc⟩ := nucleotide_indices_spec hc
        have hm : kmer_at_index m ys.length = ys := ih m hys
        have hlen : (ys ++ [c]).length = ys.length + 1 := by simp
        rw [hlen]
        unfold kmer_at_index kmer_digits_rev
        have hmod : n % 4 = v := by omega
        have hdiv : n / 4 = m := by omega
        rw [hmod, hdiv, hvc]
        simp only [List.reverse_cons]
        unfold kmer_at_index at hm
        rw [hm]

end KmerIndexRoundTrip

/-- C5: for every word `w` over `{A,C,G,T}` (equivalently, every `w`
on which `kmer_index` does not raise), decoding the base-4 integer
encoding of `w` back to a k-mer of length `len(w)` returns `w`
itself: `kmer_at_index(kmer_index(w), len(w)) = w`. -/
theorem c5_kmer_index_round_trip (w : List Char) (n : ℕ) (h : kmer_index w = some n) :
    kmer_at_index n w.length = w :=
  kmer_round_trip_aux w n h

/-- Witness for C5 at the concrete word `GAT` (index 35). -/
theorem c5_kmer_index_round_trip_witness :
    kmer_index ['G', 'A', 'T'] = some 35 ∧ kmer_at_index 35 3 = ['G', 'A', 'T'] :=
  ⟨by decide, c5_kmer_index_round_trip ['G', 'A', 'T'] 35 (by decide)⟩

section LocateKmers

/-- Popping the head of a filtered sorted list: everything else kept by
the filter lies strictly beyond the head. -/
lemma filter_head_sorted :
    ∀ (l : List ℕ), l.Pairwise (· < ·) → ∀ (q : ℕ → Bool) (p : ℕ),
      (l.filter q).head? = some p →
      l.filter q = p :: l.filter (fun x => decide (p < x) && q x) := by
  intro l hl
  induction l with
  | nil => intro q p h; simp at h
  | cons a l ih =>
    intro q p h
    have ha : ∀ x ∈ l, a < x := (List.pairwise_cons.mp hl).1
    have hl' : l.Pairwise (· < ·) := (List.pairwise_cons.mp hl).2
    by_cases hqa : q a
    · rw [List.filter_cons_of_pos hqa] at h ⊢
      have hap : a = p := by simpa using h
      subst hap
      rw [List.filter_cons_of_neg (by simp)]
      congr 1
      apply List.filter_congr
      intro x hx
      simp [ha x hx]
    · have hqa' : q a = false := by simpa using hqa
      rw [List.filter_cons_of_neg (by simp [hqa'])] at h ⊢
      rw [ih hl' q p h]
      congr 1
      rw [List.filter_cons]
      simp [hqa']

/-- The `locate_kmers` while-loop, given enough fuel, returns exactly
the matching positions at or beyond the cursor, in increasing order. -/
lemma locate_loop_eq (seq pfx : List Char) (endI : ℤ) :
    ∀ (fuel start : ℕ), seq.length + 1 ≤ fuel + start →
      locate_loop seq pfx endI fuel start =
        (List.range (seq.length + 1)).filter
          (fun p => decide (start ≤ p ∧ pyCond seq pfx endI p)) := by
  intro fuel
  induction fuel with
  | zero =>
    intro start hf
    rw [locate_loop]
    symm
    rw [List.filter_eq_nil_iff]
    intro p hp
    have hp' : p < seq.length + 1 := List.mem_range.mp hp
    simp only [decide_eq_true_eq]
    rintro ⟨h1, -⟩
    omega
  | succ fuel ih =>
    intro start hf
    cases hfind : pyFind seq pfx start endI with
    | none =>
      have h0 : locate_loop seq pfx endI (fuel + 1) start = [] := by
        simp only [locate_loop, hfind]
      rw [h0]
      unfold pyFind at hfind
      cases hfl : (List.range (seq.length + 1)).filter
          (fun p => decide (start ≤ p ∧ pyCond seq pfx endI p)) with
      | nil => rfl
      | cons x xs => rw [hfl] at hfind; exact absurd hfind (by simp)
    | some p =>
      have h0 : locate_loop seq pfx endI (fuel + 1) start =
          p :: locate_loop seq pfx endI fuel (p + 1) := by
        simp only [locate_loop, hfind]
      rw [h0]
      unfold pyFind at hfind
      have hmem : p ∈ (List.range (seq.length + 1)).filter
          (fun x => decide (start ≤ x ∧ pyCond seq pfx endI x)) := by
        cases hfl : (List.range (seq.length + 1)).filter
            (fun x => decide (start ≤ x ∧ pyCond seq pfx endI x)) with
        | nil => rw [hfl] at hfind; exact absurd hfind (by simp)
        | cons x xs =>
          rw [hfl] at hfind
          simp only [List.head?_cons, Option.some.injEq] at hfind
          rw [hfind]
          exact List.mem_cons_self _ _
      have hsp : start ≤ p := by
        have := List.of_mem_filter hmem
        simp only [decide_eq_true_eq] at this
        exact this.1
      have hpn : p < seq.length + 1 := List.mem_range.mp (List.mem_of_mem_filter hmem)
      rw [filter_head_sorted _ (List.pairwise_lt_range _) _ p hfind]
      rw [ih (p + 1) (by omega)]
      congr 1
      apply List.filter_congr
      intro x hx
      by_cases hc : pyCond seq pfx endI x
      · by_cases hpx : p < x
        · have h1 : start ≤ x := by omega
          have h2 : p + 1 ≤ x := hpx
          simp [hc, hpx, h1, h2]
        · have h2 : ¬(p + 1 ≤ x) := by omega
          simp [hpx, h2]
      · simp [hc]

end LocateKmers

/-- C1 (amended): the forward scan enumerates, in increasing order, the
occurrences of the prefix at start positions `p` with
`p + |prefix| + k ≤ len(S)` — not all occurrences with
`p + k ≤ len(S)`, because `locate_kmers` passes `end = len(seq) - k`
to `str.find`, which bounds the end of the *prefix* by `len(S) - k`.
On `ATGACATGCATATG` with `k = 5`, `prefix = AT`, it yields exactly
positions 0 and 5. -/
theorem c1_forward_scan_amended :
    (∀ (seq pfx : List Char) (k p : ℕ), k ≤ seq.length →
      (p ∈ locate_kmers seq k pfx ↔
        ((seq.drop p).take pfx.length = pfx ∧ p + pfx.length + k ≤ seq.length))) ∧
    locate_kmers ['A','T','G','A','C','A','T','G','C','A','T','A','T','G'] 5 ['A','T'] = [0, 5] := by
  constructor
  · intro seq pfx k p hk
    unfold locate_kmers
    rw [locate_loop_eq seq pfx _ (seq.length + 1) 0 (by omega)]
    rw [List.mem_filter, List.mem_range]
    simp only [decide_eq_true_eq]
    unfold pyCond
    have hneg : ¬((seq.length : ℤ) - (k : ℤ) < 0) := by omega
    have ht : (((seq.length : ℤ) - (k : ℤ)).toNat) = seq.length - k := by omega
    rw [if_neg hneg, ht, min_eq_left (Nat.sub_le _ _)]
    constructor
    · rintro ⟨hp, -, h2, h3⟩
      exact ⟨h3, by omega⟩
    · rintro ⟨h3, h2⟩
      exact ⟨by omega, by omega, by omega, h3⟩
  · decide

/-- Witness for C1 at the concrete scenario: position 0 is yielded. -/
theorem c1_forward_scan_amended_witness :
    0 ∈ locate_kmers ['A','T','G','A','C','A','T','G','C','A','T','A','T','G'] 5 ['A','T'] :=
  (c1_forward_scan_amended.1 ['A','T','G','A','C','A','T','G','C','A','T','A','T','G']
    ['A','T'] 5 0 (by decide)).mpr (by decide)

/-- Counterexample to C1 as stated: on `ATGACATGCATATG` with `k = 5`
and `prefix = AT`, the prefix occurs at position 9 with `9 + 5 ≤ 14`,
yet the forward scan yields only positions 0 and 5 — neither the
occurrence at 9 nor the claimed position 10 is yielded. -/
theorem c1_forward_scan_counterexample :
    locate_kmers ['A','T','G','A','C','A','T','G','C','A','T','A','T','G'] 5 ['A','T'] = [0, 5] ∧
    (['A','T','G','A','C','A','T','G','C','A','T','A','T','G'].drop 9).take 2 = ['A','T'] ∧
    9 + 5 ≤ 14 ∧
    9 ∉ locate_kmers ['A','T','G','A','C','A','T','G','C','A','T','A','T','G'] 5 ['A','T'] ∧
    10 ∉ locate_kmers ['A','T','G','A','C','A','T','G','C','A','T','A','T','G'] 5 ['A','T'] := by
  decide

/-- Counterexample to C4 as stated: a finder constructed through
`KmerSpec.find` without the flag does not have `find_revcomp = true`. -/
theorem c4_default_counterexample :
    ¬(((KmerSpec.init 5 ['A','T']).find ['A','C','G','T']).find_revcomp = true) := by
  decide

/-- C4 (amended): a k-mer enumerator constructed without specifying
the flags gets `revcomp = false` (not true, as the spec claims) and
`circular = false`. -/
theorem c4_default_flags (spec : KmerSpec) (seq : List Char) :
    (spec.find seq).find_revcomp = false ∧ (spec.find seq).seq_circular = false :=
  ⟨rfl, rfl⟩

/-- C3 (code bug): with `KmerSpec(k=3, prefix="A")`, sequence `ATGC`,
PHRED scores `[10, 30, 30, 30]` and threshold 20, the qualified
enumerator emits the k-mer found at position 0 even though the minimum
score over its full window `[0, 3)` is `10 < 20`: the code takes the
minimum over `qual[loc + plen : loc + k]`, excluding the prefix
positions, contradicting the spec and the method's own docstring. -/
theorem c3_quality_skips_prefix_scores :
    quality_get_kmers (KmerSpec.init 3 ['A']) ['A','T','G','C'] [10, 30, 30, 30] 20 false false =
      [['T','G']] ∧
    pyMin (pySlice [10, 30, 30, 30] 0 3) = some 10 ∧ ¬(20 ≤ 10) := by
  refine ⟨by decide, by decide, by decide⟩

/-- `np.nonzero` of a boolean vector, i.e. `vec_to_coords` for the
presence form (kmers.py 101-118): the sorted list of indices of the
true slots. -/
def vec_to_coords (vec : List Bool) : List ℕ :=
  (List.range vec.length).filter (fun i => vec.getD i false)

/-- Dense `hamming` (query.py 191-193): `(query != ref).sum()`. -/
def hamming (query ref : List Bool) : ℕ :=
  (List.zipWith (fun a b => a != b) query ref).count true

/-- Sparse `coords_hamming` (query.py 205-231): sorted merge walk
counting `|Q △ R|`; translated clause for clause from the while loop
(`q <= r` advances `i`, `r <= q` advances `j`, the trailing
`dist += n - i; dist += m - j` are the base cases). -/
def coords_hamming : List ℕ → List ℕ → ℕ
  | [], rs => rs.length
  | q :: qs, [] => (q :: qs).length
  | q :: qs, r :: rs =>
    (if q ≠ r then 1 else 0) +
      (if q < r then coords_hamming qs (r :: rs)
       else if r < q then coords_hamming (q :: qs) rs
       else coords_hamming qs rs)
termination_by qs rs => qs.length + rs.length
decreasing_by all_goals (simp only [List.length_cons]; omega)

/-- Dense `jaccard` (query.py 236-249), over exact rationals:
`logical_and(query, ref).sum() / logical_or(query, ref).sum()`
(division by zero gives 0 in `ℚ`, standing for the NaN case). -/
def jaccard (query ref : List Bool) : ℚ :=
  ((List.zipWith (fun a b => a && b) query ref).count true : ℚ) /
    ((List.zipWith (fun a b => a || b) query ref).count true : ℚ)

/-- Union counter of `coords_jaccard` (query.py 264-289): `union += 1`
on every loop iteration, plus the trailing `union += N - i; union += M - j`. -/
def coords_jaccard_union : List ℕ → List ℕ → ℕ
  | [], rs => rs.length
  | q :: qs, [] => (q :: qs).length
  | q :: qs, r :: rs =>
    1 + (if q < r then coords_jaccard_union qs (r :: rs)
         else if r < q then coords_jaccard_union (q :: qs) rs
         else coords_jaccard_union qs rs)
termination_by qs rs => qs.length + rs.length
decreasing_by all_goals (simp only [List.length_cons]; omega)

/-- Sparse `coords_jaccard` (query.py 264-289): returns
`float32(N + M - union) / union`, modelled exactly over `ℚ`. -/
def coords_jaccard (query ref : List ℕ) : ℚ :=
  ((query.length : ℚ) + (ref.length : ℚ) - (coords_jaccard_union query ref : ℚ)) /
    (coords_jaccard_union query ref : ℚ)

/-- Dense `asym_jacc` (query.py 294-307), over exact rationals:
`logical_and(query, ref).sum() / ref.sum()`. -/
def asym_jacc (query ref : List Bool) : ℚ :=
  ((List.zipWith (fun a b => a && b) query ref).count true : ℚ) / ((ref.count true : ℚ))

/-- Intersection counter of `coords_asym_jacc` (query.py 322-345):
`if q == r: intersection += 1`. -/
def coords_asym_inter : List ℕ → List ℕ → ℕ
  | [], _ => 0
  | _ :: _, [] => 0
  | q :: qs, r :: rs =>
    (if q = r then 1 else 0) +
      (if q < r then coords_asym_inter qs (r :: rs)
       else if r < q then coords_asym_inter (q :: qs) rs
       else coords_asym_inter qs rs)
termination_by qs rs => qs.length + rs.length
decreasing_by all_goals (simp only [List.length_cons]; omega)

/-- Sparse `coords_asym_jacc` (query.py 322-345): returns
`float32(intersection) / M`, modelled exactly over `ℚ`. -/
def coords_asym_jacc (query ref : List ℕ) : ℚ :=
  (coords_asym_inter query ref : ℚ) / (ref.length : ℚ)

section MetricCounting

/-- Coordinates of a boolean vector are sorted strictly increasing. -/
lemma vec_to_coords_sorted (v : List Bool) : (vec_to_coords v).Pairwise (· < ·) :=
  (List.pairwise_lt_range _).filter _

/-- Coordinates of a boolean vector contain no duplicates. -/
lemma vec_to_coords_nodup (v : List Bool) : (vec_to_coords v).Nodup :=
  (vec_to_coords_sorted v).imp Nat.ne_of_lt

/-- Membership in the coordinate list of a boolean vector. -/
lemma mem_vec_to_coords (v : List Bool) (i : ℕ) :
    i ∈ vec_to_coords v ↔ i < v.length ∧ v.getD i false = true := by
  unfold vec_to_coords
  rw [List.mem_filter, List.mem_range]

/-- Coordinates of a boolean vector are bounded by its length. -/
lemma vec_to_coords_lt (v : List Bool) : ∀ x ∈ vec_to_coords v, x < v.length := by
  intro x hx
  exact ((mem_vec_to_coords v x).mp hx).1

/-- Reading a slot of a boolean vector is membership of its index in
the coordinate list. -/
lemma getD_eq_mem_coords (v : List Bool) (i : ℕ) (hi : i < v.length) :
    v.getD i false = decide (i ∈ vec_to_coords v) := by
  by_cases h : v.getD i false = true
  · simp [h, mem_vec_to_coords, hi]
  · have h' : v.getD i false = false := by revert h; cases v.getD i false <;> simp
    simp [h', mem_vec_to_coords, hi]

/-- Counting trues of a zipped pair of equal-length vectors slot by
slot. -/
lemma count_zipWith_eq_countP_range (f : Bool → Bool → Bool) :
    ∀ (va vb : List Bool), va.length = vb.length →
      (List.zipWith f va vb).count true =
        (List.range va.length).countP (fun i => f (va.getD i false) (vb.getD i false)) := by
  intro va
  induction va with
  | nil => intro vb h; simp
  | cons a va ih =>
    intro vb h
    cases vb with
    | nil => simp at h
    | cons b vb =>
      have h' : va.length = vb.length := by
        simpa using h
      simp only [List.zipWith_cons_cons, List.length_cons]
      rw [List.count_cons, List.range_succ_eq_map, List.countP_cons, List.countP_map]
      rw [ih vb h']
      simp [Function.comp_def]

/-- Splitting a count over a pointwise-exclusive disjunction. -/
lemma countP_or_disjoint (l : List ℕ) (p q : ℕ → Bool)
    (h : ∀ x, ¬(p x = true ∧ q x = true)) :
    l.countP (fun x => p x || q x) = l.countP p + l.countP q := by
  induction l with
  | nil => simp
  | cons a l ih =>
    rw [List.countP_cons, List.countP_cons, List.countP_cons, ih]
    by_cases hp : p a = true
    · have hq : ¬(q a = true) := fun hqa => h a ⟨hp, hqa⟩
      simp only [hp, Bool.true_or, if_pos]
      simp [hq]
      omega
    · simp only [Bool.or_eq_true]
      have hp' : p a = false := by revert hp; cases p a <;> simp
      simp [hp']
      omega

/-- Counting, over the index range, membership in a nodup bounded list
refined by a predicate, equals the length of the filtered list. -/
lemma countP_range_of_mem (N : ℕ) (S : List ℕ) (t : ℕ → Bool)
    (hS : S.Nodup) (hb : ∀ x ∈ S, x < N) :
    (List.range N).countP (fun i => decide (i ∈ S) && t i) = (S.filter t).length := by
  rw [List.countP_eq_length_filter]
  apply List.Perm.length_eq
  refine (List.perm_ext_iff_of_nodup ?_ ?_).mpr ?_
  · exact (List.nodup_range N).filter _
  · exact hS.filter t
  · intro a
    simp only [List.mem_filter, List.mem_range, Bool.and_eq_true, decide_eq_true_eq]
    constructor
    · rintro ⟨-, ha, ht⟩
      exact ⟨ha, ht⟩
    · rintro ⟨ha, ht⟩
      exact ⟨hb a ha, ha, ht⟩

/-- Filter/complement split of a list length. -/
lemma length_filter_add_length_filter_not (l : List ℕ) (t : ℕ → Bool) :
    (l.filter t).length + (l.filter (fun x => !t x)).length = l.length := by
  induction l with
  | nil => rfl
  | cons a l ih =>
    by_cases h : t a = true
    · simp [List.filter_cons, h]
      omega
    · have h' : t a = false := by revert h; cases t a <;> simp
      simp [List.filter_cons, h']
      omega

/-- Counting the common elements of two nodup lists is symmetric. -/
lemma filter_mem_comm (qs rs : List ℕ) (hq : qs.Nodup) (hr : rs.Nodup) :
    (qs.filter (fun x => decide (x ∈ rs))).length =
      (rs.filter (fun x => decide (x ∈ qs))).length := by
  apply List.Perm.length_eq
  refine (List.perm_ext_iff_of_nodup (hq.filter _) (hr.filter _)).mpr ?_
  intro a
  simp only [List.mem_filter, decide_eq_true_eq]
  exact ⟨fun ⟨h1, h2⟩ => ⟨h2, h1⟩, fun ⟨h1, h2⟩ => ⟨h2, h1⟩⟩

end MetricCounting

section MergeWalk

/-- Prepending to the right list an element absent from the left list
does not change a negated-membership filter. -/
lemma filter_notmem_cons (l : List ℕ) (a : ℕ) (rs : List ℕ) (h : ∀ x ∈ l, x ≠ a) :
    l.filter (fun x => !decide (x ∈ a :: rs)) = l.filter (fun x => !decide (x ∈ rs)) := by
  apply List.filter_congr
  intro x hx
  simp [List.mem_cons, h x hx]

/-- Prepending to the right list an element absent from the left list
does not change a membership filter. -/
lemma filter_mem_cons (l : List ℕ) (a : ℕ) (rs : List ℕ) (h : ∀ x ∈ l, x ≠ a) :
    l.filter (fun x => decide (x ∈ a :: rs)) = l.filter (fun x => decide (x ∈ rs)) := by
  apply List.filter_congr
  intro x hx
  simp [List.mem_cons, h x hx]

/-- The `coords_hamming` merge walk over two strictly increasing
coordinate lists counts the elements on which the two sets differ. -/
lemma coords_hamming_eq :
    ∀ (qs rs : List ℕ), qs.Pairwise (· < ·) → rs.Pairwise (· < ·) →
      coords_hamming qs rs =
        (qs.filter (fun x => !decide (x ∈ rs))).length +
          (rs.filter (fun x => !decide (x ∈ qs))).length := by
  intro qs rs
  induction qs, rs using coords_hamming.induct with
  | case1 rs =>
    intro hq hr
    simp [coords_hamming]
  | case2 q qs =>
    intro hq hr
    simp [coords_hamming]
  | case3 q qs r rs ih1 ih2 ih3 =>
    intro hq hr
    have hq1 : ∀ x ∈ qs, q < x := (List.pairwise_cons.mp hq).1
    have hq2 : qs.Pairwise (· < ·) := (List.pairwise_cons.mp hq).2
    have hr1 : ∀ x ∈ rs, r < x := (List.pairwise_cons.mp hr).1
    have hr2 : rs.Pairwise (· < ·) := (List.pairwise_cons.mp hr).2
    rcases lt_trichotomy q r with hlt | heq | hgt
    · rw [coords_hamming, if_pos (Nat.ne_of_lt hlt), if_pos hlt, ih1 hq2 hr]
      have hgt' : ∀ x ∈ r :: rs, q < x := by
        intro x hx
        rcases List.mem_cons.mp hx with rfl | hx'
        · exact hlt
        · exact lt_trans hlt (hr1 x hx')
      have h2 : (r :: rs).filter (fun x => !decide (x ∈ q :: qs)) =
          (r :: rs).filter (fun x => !decide (x ∈ qs)) :=
        filter_notmem_cons _ _ _ (fun x hx => Nat.ne_of_gt (hgt' x hx))
      have h1 : (q :: qs).filter (fun x => !decide (x ∈ r :: rs)) =
          q :: qs.filter (fun x => !decide (x ∈ r :: rs)) := by
        rw [List.filter_cons]
        have : q ∉ r :: rs := by
          intro hmem
          rcases List.mem_cons.mp hmem with rfl | hmem'
          · omega
          · exact absurd (hr1 q hmem') (by omega)
        simp [this]
      rw [h1, h2]
      simp only [List.length_cons]
      omega
    · subst heq
      rw [coords_hamming, if_neg (by omega : ¬q ≠ q), if_neg (by omega : ¬q < q),
        if_neg (by omega : ¬q < q), ih3 hq2 hr2]
      have h1 : (q :: qs).filter (fun x => !decide (x ∈ q :: rs)) =
          qs.filter (fun x => !decide (x ∈ rs)) := by
        rw [List.filter_cons, if_neg (by simp)]
        exact filter_notmem_cons _ _ _ (fun x hx => Nat.ne_of_gt (hq1 x hx))
      have h2 : (q :: rs).filter (fun x => !decide (x ∈ q :: qs)) =
          rs.filter (fun x => !decide (x ∈ qs)) := by
        rw [List.filter_cons, if_neg (by simp)]
        exact filter_notmem_cons _ _ _ (fun x hx => Nat.ne_of_gt (hr1 x hx))
      rw [h1, h2]
      omega
    · rw [coords_hamming, if_pos (Nat.ne_of_gt hgt), if_neg (by omega : ¬q < r),
        if_pos hgt, ih2 hq hr2]
      have hgt' : ∀ x ∈ q :: qs, r < x := by
        intro x hx
        rcases List.mem_cons.mp hx with rfl | hx'
        · exact hgt
        · exact lt_trans hgt (hq1 x hx')
      have h1 : (q :: qs).filter (fun x => !decide (x ∈ r :: rs)) =
          (q :: qs).filter (fun x => !decide (x ∈ rs)) :=
        filter_notmem_cons _ _ _ (fun x hx => Nat.ne_of_gt (hgt' x hx))
      have h2 : (r :: rs).filter (fun x => !decide (x ∈ q :: qs)) =
          r :: rs.filter (fun x => !decide (x ∈ q :: qs)) := by
        rw [List.filter_cons]
        have : r ∉ q :: qs := by
          intro hmem
          exact absurd (hgt' r hmem) (by omega)
        simp [this]
      rw [h1, h2]
      simp only [List.length_cons]
      omega

/-- The union counter of `coords_jaccard` over two strictly increasing
coordinate lists counts the union of the two sets. -/
lemma coords_jaccard_union_eq :
    ∀ (qs rs : List ℕ), qs.Pairwise (· < ·) → rs.Pairwise (· < ·) →
      coords_jaccard_union qs rs =
        qs.length + (rs.filter (fun x => !decide (x ∈ qs))).length := by
  intro qs rs
  induction qs, rs using coords_jaccard_union.induct with
  | case1 rs =>
    intro hq hr
    simp [coords_jaccard_union]
  | case2 q qs =>
    intro hq hr
    simp [coords_jaccard_union]
  | case3 q qs r rs ih1 ih2 ih3 =>
    intro hq hr
    have hq1 : ∀ x ∈ qs, q < x := (List.pairwise_cons.mp hq).1
    have hq2 : qs.Pairwise (· < ·) := (List.pairwise_cons.mp hq).2
    have hr1 : ∀ x ∈ rs, r < x := (List.pairwise_cons.mp hr).1
    have hr2 : rs.Pairwise (· < ·) := (List.pairwise_cons.mp hr).2
    rcases lt_trichotomy q r with hlt | heq | hgt
    · rw [coords_jaccard_union, if_pos hlt, ih1 hq2 hr]
      have hgt' : ∀ x ∈ r :: rs, q < x := by
        intro x hx
        rcases List.mem_cons.mp hx with rfl | hx'
        · exact hlt
        · exact lt_trans hlt (hr1 x hx')
      rw [filter_notmem_cons _ _ _ (fun x hx => Nat.ne_of_gt (hgt' x hx))]
      simp only [List.length_cons]
      omega
    · subst heq
      rw [coords_jaccard_union, if_neg (by omega : ¬q < q), if_neg (by omega : ¬q < q),
        ih3 hq2 hr2]
      have h2 : (q :: rs).filter (fun x => !decide (x ∈ q :: qs)) =
          rs.filter (fun x => !decide (x ∈ qs)) := by
        rw [List.filter_cons, if_neg (by simp)]
        exact filter_notmem_cons _ _ _ (fun x hx => Nat.ne_of_gt (hr1 x hx))
      rw [h2]
      simp only [List.length_cons]
      omega
    · rw [coords_jaccard_union, if_neg (by omega : ¬q < r), if_pos hgt, ih2 hq hr2]
      have hgt' : ∀ x ∈ q :: qs, r < x := by
        intro x hx
        rcases List.mem_cons.mp hx with rfl | hx'
        · exact hgt
        · exact lt_trans hgt (hq1 x hx')
      have h2 : (r :: rs).filter (fun x => !decide (x ∈ q :: qs)) =
          r :: rs.filter (fun x => !decide (x ∈ q :: qs)) := by
        rw [List.filter_cons]
        have : r ∉ q :: qs := by
          intro hmem
          exact absurd (hgt' r hmem) (by omega)
        simp [this]
      rw [h2]
      simp only [List.length_cons]
      omega

/-- The intersection counter of `coords_asym_jacc` over two strictly
increasing coordinate lists counts the intersection of the two sets. -/
lemma coords_asym_inter_eq :
    ∀ (qs rs : List ℕ), qs.Pairwise (· < ·) → rs.Pairwise (· < ·) →
      coords_asym_inter qs rs = (qs.filter (fun x => decide (x ∈ rs))).length := by
  intro qs rs
  induction qs, rs using coords_asym_inter.induct with
  | case1 rs =>
    intro hq hr
    simp [coords_asym_inter]
  | case2 q qs =>
    intro hq hr
    simp [coords_asym_inter]
  | case3 q qs r rs ih1 ih2 ih3 =>
    intro hq hr
    have hq1 : ∀ x ∈ qs, q < x := (List.pairwise_cons.mp hq).1
    have hq2 : qs.Pairwise (· < ·) := (List.pairwise_cons.mp hq).2
    have hr1 : ∀ x ∈ rs, r < x := (List.pairwise_cons.mp hr).1
    have hr2 : rs.Pairwise (· < ·) := (List.pairwise_cons.mp hr).2
    rcases lt_trichotomy q r with hlt | heq | hgt
    · rw [coords_asym_inter, if_neg (by omega : ¬q = r), if_pos hlt, ih1 hq2 hr]
      have h1 : (q :: qs).filter (fun x => decide (x ∈ r :: rs)) =
          qs.filter (fun x => decide (x ∈ r :: rs)) := by
        rw [List.filter_cons]
        have : q ∉ r :: rs := by
          intro hmem
          rcases List.mem_cons.mp hmem with rfl | hmem'
          · omega
          · exact absurd (hr1 q hmem') (by omega)
        simp [this]
      rw [h1]
      omega
    · subst heq
      rw [coords_asym_inter, if_pos rfl, if_neg (by omega : ¬q < q),
        if_neg (by omega : ¬q < q), ih3 hq2 hr2]
      have h1 : (q :: qs).filter (fun x => decide (x ∈ q :: rs)) =
          q :: qs.filter (fun x => decide (x ∈ rs)) := by
        rw [List.filter_cons, if_pos (by simp)]
        rw [filter_mem_cons _ _ _ (fun x hx => Nat.ne_of_gt (hq1 x hx))]
      rw [h1]
      simp only [List.length_cons]
      omega
    · rw [coords_asym_inter, if_neg (by omega : ¬q = r), if_neg (by omega : ¬q < r),
        if_pos hgt, ih2 hq hr2]
      have hgt' : ∀ x ∈ q :: qs, r < x := by
        intro x hx
        rcases List.mem_cons.mp hx with rfl | hx'
        · exact hgt
        · exact lt_trans hgt (hq1 x hx')
      rw [filter_mem_cons _ _ _ (fun x hx => Nat.ne_of_gt (hgt' x hx))]
      omega

end MergeWalk

section DenseMetrics

/-- Dense Hamming as a sum of the two one-sided set differences of the
coordinate lists. -/
lemma hamming_eq_filters (va vb : List Bool) (h : va.length = vb.length) :
    hamming va vb =
      ((vec_to_coords va).filter (fun x => !decide (x ∈ vec_to_coords vb))).length +
        ((vec_to_coords vb).filter (fun x => !decide (x ∈ vec_to_coords va))).length := by
  have hdisj : ∀ x, ¬((decide (x ∈ vec_to_coords va) && !decide (x ∈ vec_to_coords vb)) = true ∧
      (!decide (x ∈ vec_to_coords va) && decide (x ∈ vec_to_coords vb)) = true) := by
    intro x
    cases decide (x ∈ vec_to_coords va) <;> cases decide (x ∈ vec_to_coords vb) <;> simp
  have hpt : ∀ i ∈ List.range va.length,
      ((va.getD i false) != (vb.getD i false)) =
        ((decide (i ∈ vec_to_coords va) && !decide (i ∈ vec_to_coords vb)) ||
          (!decide (i ∈ vec_to_coords va) && decide (i ∈ vec_to_coords vb))) := by
    intro i hi
    rw [List.mem_range] at hi
    rw [getD_eq_mem_coords va i hi, getD_eq_mem_coords vb i (by omega)]
    cases decide (i ∈ vec_to_coords va) <;> cases decide (i ∈ vec_to_coords vb) <;> rfl
  unfold hamming
  rw [count_zipWith_eq_countP_range _ va vb h]
  refine Eq.trans (List.countP_congr (fun x hx => by rw [hpt x hx])) ?_
  refine Eq.trans (countP_or_disjoint (List.range va.length) _ _ hdisj) ?_
  congr 1
  · exact countP_range_of_mem va.length (vec_to_coords va)
      (fun x => !decide (x ∈ vec_to_coords vb)) (vec_to_coords_nodup va) (vec_to_coords_lt va)
  · have hco : ∀ a ∈ List.range va.length,
        ((!decide (a ∈ vec_to_coords va) && decide (a ∈ vec_to_coords vb)) = true ↔
          (decide (a ∈ vec_to_coords vb) && !decide (a ∈ vec_to_coords va)) = true) := by
      intro a ha
      rw [Bool.and_comm]
    refine Eq.trans (List.countP_congr hco) ?_
    exact countP_range_of_mem va.length (vec_to_coords vb)
      (fun x => !decide (x ∈ vec_to_coords va)) (vec_to_coords_nodup vb)
      (fun x hx => by have := vec_to_coords_lt vb x hx; omega)

/-- Dense union count in terms of the coordinate lists. -/
lemma union_count_eq (va vb : List Bool) (h : va.length = vb.length) :
    (List.zipWith (fun a b => a || b) va vb).count true =
      (vec_to_coords va).length +
        ((vec_to_coords vb).filter (fun x => !decide (x ∈ vec_to_coords va))).length := by
  have hdisj : ∀ x, ¬((decide (x ∈ vec_to_coords va) && true) = true ∧
      (!decide (x ∈ vec_to_coords va) && decide (x ∈ vec_to_coords vb)) = true) := by
    intro x
    cases decide (x ∈ vec_to_coords va) <;> cases decide (x ∈ vec_to_coords vb) <;> simp
  have hpt : ∀ i ∈ List.range va.length,
      ((va.getD i false) || (vb.getD i false)) =
        ((decide (i ∈ vec_to_coords va) && true) ||
          (!decide (i ∈ vec_to_coords va) && decide (i ∈ vec_to_coords vb))) := by
    intro i hi
    rw [List.mem_range] at hi
    rw [getD_eq_mem_coords va i hi, getD_eq_mem_coords vb i (by omega)]
    cases decide (i ∈ vec_to_coords va) <;> cases decide (i ∈ vec_to_coords vb) <;> rfl
  rw [count_zipWith_eq_countP_range _ va vb h]
  refine Eq.trans (List.countP_congr (fun x hx => by rw [hpt x hx])) ?_
  refine Eq.trans (countP_or_disjoint (List.range va.length) _ _ hdisj) ?_
  congr 1
  · refine Eq.trans (countP_range_of_mem va.length (vec_to_coords va)
      (fun _ => true) (vec_to_coords_nodup va) (vec_to_coords_lt va)) ?_
    simp
  · have hco : ∀ a ∈ List.range va.length,
        ((!decide (a ∈ vec_to_coords va) && decide (a ∈ vec_to_coords vb)) = true ↔
          (decide (a ∈ vec_to_coords vb) && !decide (a ∈ vec_to_coords va)) = true) := by
      intro a ha
      rw [Bool.and_comm]
    refine Eq.trans (List.countP_congr hco) ?_
    exact countP_range_of_mem va.length (vec_to_coords vb)
      (fun x => !decide (x ∈ vec_to_coords va)) (vec_to_coords_nodup vb)
      (fun x hx => by have := vec_to_coords_lt vb x hx; omega)

/-- Dense intersection count in terms of the coordinate lists. -/
lemma inter_count_eq (va vb : List Bool) (h : va.length = vb.length) :
    (List.zipWith (fun a b => a && b) va vb).count true =
      ((vec_to_coords va).filter (fun x => decide (x ∈ vec_to_coords vb))).length := by
  have hpt : ∀ i ∈ List.range va.length,
      ((va.getD i false) && (vb.getD i false)) =
        (decide (i ∈ vec_to_coords va) && decide (i ∈ vec_to_coords vb)) := by
    intro i hi
    rw [List.mem_range] at hi
    rw [getD_eq_mem_coords va i hi, getD_eq_mem_coords vb i (by omega)]
  rw [count_zipWith_eq_countP_range _ va vb h]
  refine Eq.trans (List.countP_congr (fun x hx => by rw [hpt x hx])) ?_
  exact countP_range_of_mem va.length (vec_to_coords va)
    (fun x => decide (x ∈ vec_to_coords vb)) (vec_to_coords_nodup va) (vec_to_coords_lt va)

/-- The number of trues of a boolean vector is the number of its
coordinates. -/
lemma count_true_eq_coords_length (v : List Bool) :
    v.count true = (vec_to_coords v).length := by
  have hz := count_zipWith_eq_countP_range (fun a _ => a) v v rfl
  rw [List.zipWith_same] at hz
  have hm : v.map (fun a => a) = v := List.map_id' v
  rw [hm] at hz
  rw [hz]
  refine Eq.trans (List.countP_congr ?_) (Eq.trans (countP_range_of_mem v.length
    (vec_to_coords v) (fun _ => true) (vec_to_coords_nodup v) (vec_to_coords_lt v)) ?_)
  · intro i hi
    rw [List.mem_range] at hi
    rw [getD_eq_mem_coords v i hi]
    cases decide (i ∈ vec_to_coords v) <;> simp
  · simp

end DenseMetrics

/-- C2: for every pair of equal-length dense boolean vectors and the
corresponding sorted coordinate arrays (`np.nonzero`), the dense and
the sparse merge-walk implementations of each metric agree:
`coords_hamming` returns the identical natural number as dense
`hamming`, and `coords_jaccard` / `coords_asym_jacc` return exactly
the same value as dense `jaccard` / `asym_jacc` (floating arithmetic
modelled exactly over `ℚ`, so the exact values agree — stronger than
the one-ULP contract). -/
theorem c2_dense_sparse_metrics_agree (va vb : List Bool) (h : va.length = vb.length) :
    coords_hamming (vec_to_coords va) (vec_to_coords vb) = hamming va vb ∧
    coords_jaccard (vec_to_coords va) (vec_to_coords vb) = jaccard va vb ∧
    coords_asym_jacc (vec_to_coords va) (vec_to_coords vb) = asym_jacc va vb := by
  refine ⟨?_, ?_, ?_⟩
  · rw [coords_hamming_eq _ _ (vec_to_coords_sorted va) (vec_to_coords_sorted vb),
      hamming_eq_filters va vb h]
  · unfold coords_jaccard jaccard
    rw [coords_jaccard_union_eq _ _ (vec_to_coords_sorted va) (vec_to_coords_sorted vb)]
    rw [inter_count_eq va vb h, union_count_eq va vb h]
    have hsplit := length_filter_add_length_filter_not (vec_to_coords vb)
      (fun x => decide (x ∈ vec_to_coords va))
    have hcomm := filter_mem_comm (vec_to_coords va) (vec_to_coords vb)
      (vec_to_coords_nodup va) (vec_to_coords_nodup vb)
    have hq1 : ((((vec_to_coords vb).filter (fun x => decide (x ∈ vec_to_coords va))).length : ℚ)) +
        (((vec_to_coords vb).filter (fun x => !decide (x ∈ vec_to_coords va))).length : ℚ) =
        ((vec_to_coords vb).length : ℚ) := by
      exact_mod_cast hsplit
    have hq2 : ((((vec_to_coords va).filter (fun x => decide (x ∈ vec_to_coords vb))).length : ℚ)) =
        (((vec_to_coords vb).filter (fun x => decide (x ∈ vec_to_coords va))).length : ℚ) := by
      exact_mod_cast hcomm
    congr 1
    push_cast
    linarith
  · unfold coords_asym_jacc asym_jacc
    rw [coords_asym_inter_eq _ _ (vec_to_coords_sorted va) (vec_to_coords_sorted vb)]
    rw [inter_count_eq va vb h, count_true_eq_coords_length vb]

/-- Witness for C2 at a concrete vector pair of length 4. -/
theorem c2_dense_sparse_metrics_agree_witness :
    coords_hamming (vec_to_coords [true, false, true, true]) (vec_to_coords [false, false, true, false]) =
        hamming [true, false, true, true] [false, false, true, false] ∧
    coords_jaccard (vec_to_coords [true, false, true, true]) (vec_to_coords [false, false, true, false]) =
        jaccard [true, false, true, true] [false, false, true, false] ∧
    coords_asym_jacc (vec_to_coords [true, false, true, true]) (vec_to_coords [false, false, true, false]) =
        asym_jacc [true, false, true, true] [false, false, true, false] :=
  c2_dense_sparse_metrics_agree [true, false, true, true] [false, false, true, false] (by decide)

/-- Bit width and signedness of the numpy integer dtypes used by the
storage formats. -/
structure NpDtype where
  bits : ℕ
  signed : Bool
deriving DecidableEq

/-- `np.int32`. -/
def np_int32 : NpDtype := { bits := 32, signed := true }

/-- `np.int64`. -/
def np_int64 : NpDtype := { bits := 64, signed := true }

/-- `np.uint32`. -/
def np_uint32 : NpDtype := { bits := 32, signed := false }

/-- `KmerSetStorageFormat.__init__` (store.py 11-13): builds the spec
from the collection's `(k, prefix)` and chooses
`np.int64 if self.spec.idx_len >= 2**32 else np.int32` as the element
type of coordinate (sparse index) arrays; `CoordsFormat.store`
(store.py 51-55) passes this `index_dtype` to `vec_to_coords`. -/
def format_index_dtype (k : ℕ) (pfx0 : List Char) : NpDtype :=
  if (KmerSpec.init k pfx0).idx_len ≥ 2 ^ 32 then np_int64 else np_int32

/-- Counterexample to C7 as stated: for a collection with `k = 8`,
`prefix = A` (so `N = 4^7 < 2^32`) the chosen element type is the
signed `np.int32`, not a 32-bit unsigned type. -/
theorem c7_index_dtype_counterexample :
    (KmerSpec.init 8 ['A']).idx_len < 2 ^ 32 ∧
    format_index_dtype 8 ['A'] ≠ np_uint32 ∧
    (format_index_dtype 8 ['A']).signed = true := by
  decide

/-- C7 (amended): the element type used for coordinate arrays is the
32-bit SIGNED integer `np.int32` when `N < 2^32` and the 64-bit signed
`np.int64` otherwise (widths as the claim says, but signed, not
unsigned). -/
theorem c7_index_dtype_width (k : ℕ) (pfx0 : List Char) :
    ((KmerSpec.init k pfx0).idx_len < 2 ^ 32 →
      format_index_dtype k pfx0 = np_int32 ∧ (format_index_dtype k pfx0).bits = 32) ∧
    (2 ^ 32 ≤ (KmerSpec.init k pfx0).idx_len →
      format_index_dtype k pfx0 = np_int64 ∧ (format_index_dtype k pfx0).bits = 64) := by
  constructor
  · intro h
    have hn : ¬((KmerSpec.init k pfx0).idx_len ≥ 2 ^ 32) := by omega
    unfold format_index_dtype
    rw [if_neg hn]
    exact ⟨rfl, rfl⟩
  · intro h
    unfold format_index_dtype
    rw [if_pos (by omega)]
    exact ⟨rfl, rfl⟩

/-- Witness for C7 at `k = 8`, `prefix = A`. -/
theorem c7_index_dtype_width_witness :
    format_index_dtype 8 ['A'] = np_int32 ∧ (format_index_dtype 8 ['A']).bits = 32 :=
  (c7_index_dtype_width 8 ['A']).1 (by decide)

/-- `KmerCoordsCollection` (kmers.py 378-402): a flat coordinate array
plus a bounds array delimiting the stored sets. -/
structure KmerCoordsCollection where
  coords_array : List ℤ
  bounds : List ℕ
deriving DecidableEq

/-- `KmerCoordsCollection.__len__` (kmers.py 385-386):
`len(self.bounds) - 1`. -/
def KmerCoordsCollection.len (c : KmerCoordsCollection) : ℕ :=
  c.bounds.length - 1

/-- Message of the `ValueError` raised by out-of-bounds access
(kmers.py 392, 398). -/
def indexError (i : ℤ) : String :=
  "Index " ++ toString i ++ " out of bounds"

/-- `KmerCoordsCollection.__getitem__` (kmers.py 388-392): under
`0 <= index < len(self)` returns
`coords_array[slice(*bounds[index:index+2])]`, else raises
`ValueError` (in particular for every negative index: no wrapping). -/
def KmerCoordsCollection.getitem (c : KmerCoordsCollection) (i : ℤ) :
    Except String (List ℤ) :=
  if 0 ≤ i ∧ i < (c.len : ℤ) then
    Except.ok (pySlice c.coords_array (c.bounds.getD i.toNat 0) (c.bounds.getD (i.toNat + 1) 0))
  else
    Except.error (indexError i)

/-- `KmerCoordsCollection.__setitem__` (kmers.py 394-398): writes the
value over `coords_array[bounds[index]:bounds[index+1]]`; a numpy
broadcast mismatch between the value and the slice is an error. -/
def KmerCoordsCollection.setitem (c : KmerCoordsCollection) (i : ℤ) (v : List ℤ) :
    Except String KmerCoordsCollection :=
  if 0 ≤ i ∧ i < (c.len : ℤ) then
    if v.length = (pySlice c.coords_array (c.bounds.getD i.toNat 0)
        (c.bounds.getD (i.toNat + 1) 0)).length then
      Except.ok { c with coords_array :=
        (c.coords_array.take (c.bounds.getD i.toNat 0) ++ v ++
          c.coords_array.drop (c.bounds.getD (i.toNat + 1) 0)) }
    else
      Except.error "could not broadcast"
  else
    Except.error (indexError i)

/-- C10: reading or assigning `c[i]` raises for every integer `i`
outside `[0, len(c))` — including every negative `i`, with no
Python-style wrapping — and for `i` in range accesses exactly the
slice of the flat array delimited by `bounds[i]` and `bounds[i+1]`. -/
theorem c10_coords_collection_indexing (c : KmerCoordsCollection) (i : ℤ) (v : List ℤ) :
    ((i < 0 ∨ (c.len : ℤ) ≤ i) →
      c.getitem i = Except.error (indexError i) ∧
      c.setitem i v = Except.error (indexError i)) ∧
    (0 ≤ i → i < (c.len : ℤ) →
      c.getitem i =
        Except.ok (pySlice c.coords_array (c.bounds.getD i.toNat 0)
          (c.bounds.getD (i.toNat + 1) 0)) ∧
      (v.length = (pySlice c.coords_array (c.bounds.getD i.toNat 0)
          (c.bounds.getD (i.toNat + 1) 0)).length →
        c.setitem i v = Except.ok { c with coords_array :=
          (c.coords_array.take (c.bounds.getD i.toNat 0) ++ v ++
            c.coords_array.drop (c.bounds.getD (i.toNat + 1) 0)) })) := by
  constructor
  · intro hout
    have hc : ¬(0 ≤ i ∧ i < (c.len : ℤ)) := by omega
    unfold KmerCoordsCollection.getitem KmerCoordsCollection.setitem
    rw [if_neg hc, if_neg hc]
    exact ⟨rfl, rfl⟩
  · intro h0 hlen
    have hc : (0 ≤ i ∧ i < (c.len : ℤ)) := ⟨h0, hlen⟩
    unfold KmerCoordsCollection.getitem KmerCoordsCollection.setitem
    rw [if_pos hc, if_pos hc]
    refine ⟨rfl, fun hv => ?_⟩
    rw [if_pos hv]

/-- Witness for C10 on a concrete two-set collection: index `-1`
raises and index `1` returns the second stored set. -/
theorem c10_coords_collection_indexing_witness :
    (KmerCoordsCollection.mk [5, 7, 9] [0, 2, 3]).getitem (-1) =
        Except.error (indexError (-1)) ∧
    (KmerCoordsCollection.mk [5, 7, 9] [0, 2, 3]).getitem 1 = Except.ok [9] :=
  ⟨((c10_coords_collection_indexing (KmerCoordsCollection.mk [5, 7, 9] [0, 2, 3]) (-1) []).1
      (by decide)).1,
   ((c10_coords_collection_indexing (KmerCoordsCollection.mk [5, 7, 9] [0, 2, 3]) 1 []).2
      (by decide) (by decide)).1⟩

/-- Python `\w` of the `re` module without `re.UNICODE` (this is
Python-2 code): ASCII letters, digits and underscore. -/
def isWordChar (c : Char) : Bool :=
  decide (('a' ≤ c ∧ c ≤ 'z') ∨ ('A' ≤ c ∧ c ≤ 'Z') ∨ ('0' ≤ c ∧ c ≤ '9') ∨ c = '_')

/-- `re.sub(r'\W+', '_', s)` (database.py 419, 432): each maximal run
of non-word characters collapses to a single underscore; the flag
records whether the previous character was part of such a run. -/
def collapseNonWord : Bool → List Char → List Char
  | _, [] => []
  | prevNon, c :: rest =>
    if isWordChar c then c :: collapseNonWord false rest
    else if prevNon then collapseNonWord true rest
    else '_' :: collapseNonWord true rest

/-- `re.sub(r'\W+', '_', s)` applied to a whole string. -/
def pySubNonWord (s : List Char) : List Char :=
  collapseNonWord false s

/-- Catalog row fields of `Genome` used by `store_genome`
(database/models.py, database.py 158-293). -/
structure GenomeRow where
  description : List Char
  gb_acc : Option (List Char)
  file_format : List Char
  compression : Option (List Char)
  filename : List Char
deriving DecidableEq

/-- Collision loop of `_make_genome_file_name` (database.py 421-428),
with fuel (the candidates are pairwise distinct and the catalog is
finite, so `len(catalog) + 1` iterations always suffice); the `i`-th
candidate is `'{}_{}'.format(base, i) + ext`. -/
def gen_file_name_loop (cat : List GenomeRow) (base ext : List Char) :
    ℕ → ℕ → List Char → List Char
  | 0, _, current => current
  | fuel + 1, i, current =>
    if cat.any (fun g => g.filename == current) then
      gen_file_name_loop cat base ext fuel (i + 1)
        (base ++ ('_' :: Nat.toDigits 10 (i + 1)) ++ ext)
    else current

/-- `Database._make_genome_file_name` (database.py 408-428): the slug
of the first 25 characters of the accession (preferred) or the
description, followed by `.<file_format>`, plus `.gz` when the stored
compression is gzip; a numeric suffix goes before the extension on a
catalog collision. -/
def make_genome_file_name (g : GenomeRow) (cat : List GenomeRow) : List Char :=
  let val := g.gb_acc.getD g.description
  let ext := '.' :: (g.file_format ++
    (if g.compression = some "gzip".toList then ".gz".toList else []))
  let base := pySubNonWord (val.take 25)
  gen_file_name_loop cat base ext (cat.length + 1) 0 (base ++ ext)

/-- `Database._make_kmer_collection_dirname` (database.py 430-442):
the slug of the first 25 characters of the title, lower-cased; on a
collision the loop body evaluates `'{}_{}'.format(base, i) + ext`
where no local `ext` is defined, so the first collision raises
`NameError` before any suffixed name is produced. -/
def make_kmer_collection_dirname (title : List Char) (dirs : List (List Char)) :
    Except String (List Char) :=
  let base := (pySubNonWord (title.take 25)).map Char.toLower
  if dirs.any (fun d => d == base) then
    Except.error "NameError: global name 'ext' is not defined"
  else
    Except.ok base

/-- Content of a stored file: plain bytes, or the gzip encoding of an
inner content. -/
inductive Bytes where
  | plain (data : List ℕ)
  | gz (inner : Bytes)
deriving DecidableEq

/-- State visible to `store_genome`: the source area (files outside
the database), the genome area `genomes/`, and the catalog rows. -/
structure DbState where
  outer : List (List Char × Bytes)
  genomes : List (List Char × Bytes)
  catalog : List GenomeRow
deriving DecidableEq

/-- `os.unlink`. -/
def fsRemove (files : List (List Char × Bytes)) (name : List Char) :
    List (List Char × Bytes) :=
  files.filter (fun p => decide (p.1 ≠ name))

/-- Creating or overwriting a file. -/
def fsWrite (files : List (List Char × Bytes)) (name : List Char) (b : Bytes) :
    List (List Char × Bytes) :=
  (name, b) :: fsRemove files name

/-- Keyword arguments of `Database.store_genome` (database.py 158-169)
for a path source; `compression_kw = none` models the key being
absent, in which case `kwargs.setdefault('compression', 'gzip')`
applies. -/
structure StoreArgs where
  file_ : List Char
  src_compression : Option (List Char)
  keep_src : Bool
  compression_kw : Option (Option (List Char))
  description : List Char
  gb_acc : Option (List Char)
  file_format : List Char
deriving DecidableEq

/-- The `Genome(**kwargs)` row built by `store_genome` with the file
name assigned by `_make_genome_file_name` (database.py 167-172). -/
def StoreArgs.genomeRow (a : StoreArgs) (cat : List GenomeRow) : GenomeRow :=
  let row0 : GenomeRow :=
    { description := a.description
      gb_acc := a.gb_acc
      file_format := a.file_format
      compression := a.compression_kw.getD (some "gzip".toList)
      filename := [] }
  { row0 with filename := make_genome_file_name row0 cat }

/-- Result of the file-system phase of `store_genome`: success carries
the post-copy state, the row to insert, and the `src_moved` and
`needs_delete` flags; failure carries the raised error and the state
at that point. -/
inductive FsOutcome where
  | ok (st : DbState) (row : GenomeRow) (srcMoved needsDelete : Bool)
  | fail (e : String) (st : DbState)
deriving DecidableEq

/-- File-system phase of `Database.store_genome` (database.py 158-266)
for a path source (`isinstance(file_, basestring)`): determine the
file name, refuse when the destination exists, then copy (`copyfile`),
move (`os.rename`) or transcode the blob into the genome area.  A
gzip-decode failure happens during `copyfileobj`, after the
destination was opened, leaving a partial (modelled empty) file; the
`ValueError`s for unknown compression tags fire before any
file-system mutation. -/
def store_genome_fs (a : StoreArgs) (st : DbState) : FsOutcome :=
  if (List.lookup (a.genomeRow st.catalog).filename st.genomes).isSome then
    .fail "exists" st
  else if (a.genomeRow st.catalog).compression = a.src_compression then
    match List.lookup a.file_ st.outer with
    | none => .fail "IOError" st
    | some b =>
      if a.keep_src then
        .ok { st with genomes := fsWrite st.genomes (a.genomeRow st.catalog).filename b }
          (a.genomeRow st.catalog) false false
      else
        .ok { st with genomes := fsWrite st.genomes (a.genomeRow st.catalog).filename b,
                      outer := fsRemove st.outer a.file_ }
          (a.genomeRow st.catalog) true false
  else
    if ¬(a.src_compression = none ∨ a.src_compression = some "gzip".toList) then
      .fail "ValueError" st
    else
      match List.lookup a.file_ st.outer with
      | none => .fail "IOError" st
      | some b =>
        if ¬((a.genomeRow st.catalog).compression = none ∨
            (a.genomeRow st.catalog).compression = some "gzip".toList) then
          .fail "ValueError" st
        else
          match a.src_compression, b with
          | some _, Bytes.plain _ =>
            .fail "gzip decode error"
              { st with
                genomes :=
                  fsWrite st.genomes (a.genomeRow st.catalog).filename (Bytes.plain []) }
          | some _, Bytes.gz inner =>
            let content :=
              if (a.genomeRow st.catalog).compression = some "gzip".toList then Bytes.gz inner
              else inner
            .ok { st with
                  genomes := fsWrite st.genomes (a.genomeRow st.catalog).filename content }
              (a.genomeRow st.catalog) false (!a.keep_src)
          | none, bb =>
            let content :=
              if (a.genomeRow st.catalog).compression = some "gzip".toList then Bytes.gz bb
              else bb
            .ok { st with
                  genomes := fsWrite st.genomes (a.genomeRow st.catalog).filename content }
              (a.genomeRow st.catalog) false (!a.keep_src)

/-- `Database.store_genome` (database.py 158-293): the file-system
phase, then `session.add(genome); session.commit()` whose success is
injected through `insert_ok`; on a catalog error the file-system
action is reversed (`os.rename` back when the source was moved,
`os.unlink` otherwise) and the error propagates; on success a
transcoded source with `keep_src = False` is deleted afterwards. -/
def store_genome (a : StoreArgs) (insert_ok : Bool) (st : DbState) :
    Except String GenomeRow × DbState :=
  match store_genome_fs a st with
  | .fail e st1 => (.error e, st1)
  | .ok st1 row srcMoved ndel =>
    if insert_ok then
      let st2 := { st1 with catalog := st1.catalog ++ [row] }
      let st3 := if ndel then { st2 with outer := fsRemove st2.outer a.file_ } else st2
      (.ok row, st3)
    else
      let st2 :=
        if srcMoved then
          match List.lookup row.filename st1.genomes with
          | some b => { st1 with genomes := fsRemove st1.genomes row.filename,
                                 outer := fsWrite st1.outer a.file_ b }
          | none => st1
        else
          { st1 with genomes := fsRemove st1.genomes row.filename }
      (.error "DatabaseError", st2)

section FsLemmas

/-- Removing files of another name does not change a lookup. -/
lemma lookup_fsRemove_ne (files : List (List Char × Bytes)) (name m : List Char)
    (h : m ≠ name) :
    List.lookup m (fsRemove files name) = List.lookup m files := by
  unfold fsRemove
  induction files with
  | nil => rfl
  | cons p files ih =>
    obtain ⟨k, v⟩ := p
    by_cases hk : k = name
    · rw [List.filter_cons_of_neg (by simp [hk])]
      rw [ih]
      have hmk : (m == k) = false := by
        simp only [beq_eq_false_iff_ne]
        rw [hk]
        exact h
      simp [List.lookup, hmk]
    · rw [List.filter_cons_of_pos (by simp [hk])]
      by_cases hkm : k = m
      · subst hkm
        simp [List.lookup]
      · have hf : (m == k) = false := by
          simp only [beq_eq_false_iff_ne]
          exact fun he => hkm he.symm
        simp only [List.lookup, hf]
        exact ih

/-- After removing a file, looking it up yields nothing. -/
lemma lookup_fsRemove_self (files : List (List Char × Bytes)) (name : List Char) :
    List.lookup name (fsRemove files name) = none := by
  unfold fsRemove
  induction files with
  | nil => rfl
  | cons p files ih =>
    obtain ⟨k, v⟩ := p
    by_cases hk : k = name
    · rw [List.filter_cons_of_neg (by simp [hk])]
      exact ih
    · rw [List.filter_cons_of_pos (by simp [hk])]
      have hf : (name == k) = false := by
        simp only [beq_eq_false_iff_ne]
        exact fun he => hk he.symm
      simp only [List.lookup, hf]
      exact ih

/-- A written file is found by lookup. -/
lemma lookup_fsWrite_self (files : List (List Char × Bytes)) (name : List Char) (b : Bytes) :
    List.lookup name (fsWrite files name b) = some b := by
  unfold fsWrite
  simp [List.lookup]

/-- Writing a file of another name does not change a lookup. -/
lemma lookup_fsWrite_ne (files : List (List Char × Bytes)) (name m : List Char) (b : Bytes)
    (h : m ≠ name) :
    List.lookup m (fsWrite files name b) = List.lookup m files := by
  unfold fsWrite
  have hf : (m == name) = false := by
    simp only [beq_eq_false_iff_ne]
    exact h
  simp only [List.lookup, hf]
  exact lookup_fsRemove_ne files name m h

end FsLemmas

/-- Successful file-system phases of `store_genome` write exactly one
new blob under the fresh file name, leave the catalog alone, and
remove the source exactly when it was moved. -/
lemma store_genome_fs_ok_shape (a : StoreArgs) (st : DbState) (st1 : DbState)
    (row : GenomeRow) (srcMoved ndel : Bool)
    (hfs : store_genome_fs a st = FsOutcome.ok st1 row srcMoved ndel) :
    row = a.genomeRow st.catalog ∧
    List.lookup row.filename st.genomes = none ∧
    st1.catalog = st.catalog ∧
    (∃ b, st1.genomes = fsWrite st.genomes row.filename b ∧
      ((srcMoved = false ∧ st1.outer = st.outer) ∨
       (srcMoved = true ∧ List.lookup a.file_ st.outer = some b ∧
         st1.outer = fsRemove st.outer a.file_))) := by
  unfold store_genome_fs at hfs
  split at hfs
  · exact FsOutcome.noConfusion hfs
  next hexists =>
    have hnone : List.lookup (a.genomeRow st.catalog).filename st.genomes = none := by
      cases h : List.lookup (a.genomeRow st.catalog).filename st.genomes with
      | none => rfl
      | some b => rw [h] at hexists; simp at hexists
    split at hfs
    · -- same-format branch
      split at hfs
      · exact FsOutcome.noConfusion hfs
      next b hb =>
        split at hfs
        · injection hfs with h1 h2 h3 h4
          subst h1; subst h2; subst h3; subst h4
          exact ⟨rfl, hnone, rfl, b, rfl, Or.inl ⟨rfl, rfl⟩⟩
        · injection hfs with h1 h2 h3 h4
          subst h1; subst h2; subst h3; subst h4
          exact ⟨rfl, hnone, rfl, b, rfl, Or.inr ⟨rfl, hb, rfl⟩⟩
    · -- transcode branch
      split at hfs
      · exact FsOutcome.noConfusion hfs
      · split at hfs
        · exact FsOutcome.noConfusion hfs
        next b hb =>
          split at hfs
          · exact FsOutcome.noConfusion hfs
          · split at hfs
            · exact FsOutcome.noConfusion hfs
            · injection hfs with h1 h2 h3 h4
              subst h1; subst h2; subst h3; subst h4
              exact ⟨rfl, hnone, rfl, _, rfl, Or.inl ⟨rfl, rfl⟩⟩
            · injection hfs with h1 h2 h3 h4
              subst h1; subst h2; subst h3; subst h4
              exact ⟨rfl, hnone, rfl, _, rfl, Or.inl ⟨rfl, rfl⟩⟩

/-- C6: `store_genome` is atomic with respect to the genome area and
the catalog.  First conjunct: when the destination file already
exists, the import refuses to proceed and changes nothing.  Second
conjunct: whenever the file-system phase succeeded and the catalog
insert fails, the error propagates, the catalog is unchanged, and both
the genome area and the source area are restored (a moved source is
moved back, a copied or transcoded blob is unlinked), so no blob and
no row remain for the import. -/
theorem c6_store_genome_atomic (a : StoreArgs) (st : DbState) :
    ((List.lookup (a.genomeRow st.catalog).filename st.genomes).isSome = true →
      ∀ insert_ok, store_genome a insert_ok st = (Except.error "exists", st)) ∧
    (∀ st1 row srcMoved ndel,
      store_genome_fs a st = FsOutcome.ok st1 row srcMoved ndel →
      (store_genome a false st).1 = Except.error "DatabaseError" ∧
      (store_genome a false st).2.catalog = st.catalog ∧
      (∀ m, List.lookup m (store_genome a false st).2.genomes = List.lookup m st.genomes) ∧
      (∀ m, List.lookup m (store_genome a false st).2.outer = List.lookup m st.outer)) := by
  constructor
  · intro hsome insert_ok
    have hfs : store_genome_fs a st = FsOutcome.fail "exists" st := by
      unfold store_genome_fs
      rw [if_pos hsome]
    simp [store_genome, hfs]
  · intro st1 row srcMoved ndel hfs
    obtain ⟨hrow, hnone, hcat, b, hgen, houter⟩ :=
      store_genome_fs_ok_shape a st st1 row srcMoved ndel hfs
    rcases houter with ⟨hmv, ho⟩ | ⟨hmv, hlk, ho⟩
    · subst hmv
      have hred : store_genome a false st =
          (Except.error "DatabaseError",
            { st1 with genomes := fsRemove st1.genomes row.filename }) := by
        simp [store_genome, hfs]
      rw [hred]
      refine ⟨rfl, hcat, ?_, ?_⟩
      · intro m
        by_cases hm : m = row.filename
        · subst hm
          show List.lookup row.filename (fsRemove st1.genomes row.filename) =
            List.lookup row.filename st.genomes
          rw [lookup_fsRemove_self, hnone]
        · show List.lookup m (fsRemove st1.genomes row.filename) = List.lookup m st.genomes
          rw [lookup_fsRemove_ne _ _ _ hm, hgen, lookup_fsWrite_ne _ _ _ _ hm]
      · intro m
        show List.lookup m st1.outer = List.lookup m st.outer
        rw [ho]
    · subst hmv
      have hlkup : List.lookup row.filename st1.genomes = some b := by
        rw [hgen]
        exact lookup_fsWrite_self _ _ _
      have hred : store_genome a false st =
          (Except.error "DatabaseError",
            { st1 with genomes := fsRemove st1.genomes row.filename,
                       outer := fsWrite st1.outer a.file_ b }) := by
        simp [store_genome, hfs, hlkup]
      rw [hred]
      refine ⟨rfl, hcat, ?_, ?_⟩
      · intro m
        by_cases hm : m = row.filename
        · subst hm
          show List.lookup row.filename (fsRemove st1.genomes row.filename) =
            List.lookup row.filename st.genomes
          rw [lookup_fsRemove_self, hnone]
        · show List.lookup m (fsRemove st1.genomes row.filename) = List.lookup m st.genomes
          rw [lookup_fsRemove_ne _ _ _ hm, hgen, lookup_fsWrite_ne _ _ _ _ hm]
      · intro m
        by_cases hm : m = a.file_
        · subst hm
          show List.lookup a.file_ (fsWrite st1.outer a.file_ b) = List.lookup a.file_ st.outer
          rw [lookup_fsWrite_self, hlk]
        · show List.lookup m (fsWrite st1.outer a.file_ b) = List.lookup m st.outer
          rw [lookup_fsWrite_ne _ _ _ _ hm, ho, lookup_fsRemove_ne _ _ _ hm]

/-- Import arguments of the concrete demonstration scenario: path
source `src`, no compression keys given, `keep_src = True`. -/
def demo_args : StoreArgs :=
  ⟨"src".toList, none, true, none, "g1".toList, none, "fasta".toList⟩

/-- Demonstration state: the source file holds plain bytes; genome
area and catalog are empty. -/
def demo_state : DbState :=
  ⟨[("src".toList, Bytes.plain [1, 2])], [], []⟩

/-- Demonstration state whose genome area already holds the
destination file name. -/
def demo_occupied : DbState :=
  ⟨[("src".toList, Bytes.plain [1, 2])], [("g1.fasta.gz".toList, Bytes.plain [])], []⟩

/-- The row the demonstration import builds. -/
def demo_row : GenomeRow :=
  ⟨"g1".toList, none, "fasta".toList, some "gzip".toList, "g1.fasta.gz".toList⟩

/-- Mid-state of the demonstration import, after the transcoded blob
was written. -/
def demo_mid : DbState :=
  ⟨[("src".toList, Bytes.plain [1, 2])],
   [("g1.fasta.gz".toList, Bytes.gz (Bytes.plain [1, 2]))], []⟩

/-- Witness for C6: the refusal on an existing destination, and the
clean rollback of a concrete failed import. -/
theorem c6_store_genome_atomic_witness :
    store_genome demo_args true demo_occupied = (Except.error "exists", demo_occupied) ∧
    (store_genome demo_args false demo_state).1 = Except.error "DatabaseError" ∧
    (store_genome demo_args false demo_state).2.catalog = demo_state.catalog :=
  ⟨(c6_store_genome_atomic demo_args demo_occupied).1 (by decide) true,
   ((c6_store_genome_atomic demo_args demo_state).2 demo_mid demo_row false false
      (by decide)).1,
   ((c6_store_genome_atomic demo_args demo_state).2 demo_mid demo_row false false
      (by decide)).2.1⟩

/-- C8 (code bug): with an existing collection directory
`my_collection`, creating a collection titled `My Collection` raises
`NameError` (the collision branch of `_make_kmer_collection_dirname`
evaluates `'{}_{}'.format(base, i) + ext` with `ext` undefined)
instead of returning the suffixed name; without a collision the
slugged lower-cased name is returned. -/
theorem c8_collection_dirname_collision :
    make_kmer_collection_dirname "My Collection".toList ["my_collection".toList] =
      Except.error "NameError: global name 'ext' is not defined" ∧
    make_kmer_collection_dirname "My Collection".toList [] =
      Except.ok "my_collection".toList :=
  ⟨rfl, rfl⟩

section GenFileName

/-- Every candidate of the file-name collision loop ends in the
extension. -/
lemma gen_file_name_loop_suffix (cat : List GenomeRow) (base ext : List Char) :
    ∀ (fuel i : ℕ) (current : List Char), ext <:+ current →
      ext <:+ gen_file_name_loop cat base ext fuel i current := by
  intro fuel
  induction fuel with
  | zero =>
    intro i current h
    rw [gen_file_name_loop]
    exact h
  | succ fuel ih =>
    intro i current h
    rw [gen_file_name_loop]
    split
    · apply ih
      simpa using List.suffix_append (base ++ ('_' :: Nat.toDigits 10 (i + 1))) ext
    · exact h

/-- A gzip-compressed genome's stored file name ends in `.gz`. -/
lemma make_genome_file_name_gz (g : GenomeRow) (cat : List GenomeRow)
    (h : g.compression = some "gzip".toList) :
    ".gz".toList <:+ make_genome_file_name g cat := by
  simp only [make_genome_file_name, h, if_pos]
  have hsub : ".gz".toList <:+ ('.' :: (g.file_format ++ ".gz".toList)) := by
    refine List.IsSuffix.trans (List.suffix_append g.file_format ".gz".toList) ?_
    exact List.suffix_cons '.' _
  exact hsub.trans (gen_file_name_loop_suffix _ _ _ _ _ _ (List.suffix_append _ _))

end GenFileName

/-- C9: when both compression keys are omitted, the stored catalog row
records compression `gzip`, the stored file name ends in `.gz`, and
the blob written into the genome area is the gzip form of the (plain)
source; the import succeeds when the catalog insert does. -/
theorem c9_default_compression_gzip (a : StoreArgs) (st : DbState) (b : Bytes)
    (hck : a.compression_kw = none) (hsrc : a.src_compression = none)
    (hfile : List.lookup a.file_ st.outer = some b)
    (hfree : List.lookup (a.genomeRow st.catalog).filename st.genomes = none) :
    (a.genomeRow st.catalog).compression = some "gzip".toList ∧
    ".gz".toList <:+ (a.genomeRow st.catalog).filename ∧
    (store_genome a true st).1 = Except.ok (a.genomeRow st.catalog) ∧
    List.lookup (a.genomeRow st.catalog).filename (store_genome a true st).2.genomes =
      some (Bytes.gz b) ∧
    (a.genomeRow st.catalog) ∈ (store_genome a true st).2.catalog := by
  have hcomp : (a.genomeRow st.catalog).compression = some "gzip".toList := by
    simp [StoreArgs.genomeRow, hck]
  have hsuffix : ".gz".toList <:+ (a.genomeRow st.catalog).filename := by
    have hfn : (a.genomeRow st.catalog).filename = make_genome_file_name
        { description := a.description, gb_acc := a.gb_acc, file_format := a.file_format,
          compression := some "gzip".toList, filename := [] } st.catalog := by
      simp [StoreArgs.genomeRow, hck]
    rw [hfn]
    exact make_genome_file_name_gz _ _ rfl
  have hfs : store_genome_fs a st = FsOutcome.ok
      { st with genomes := fsWrite st.genomes (a.genomeRow st.catalog).filename (Bytes.gz b) }
      (a.genomeRow st.catalog) false (!a.keep_src) := by
    simp [store_genome_fs, hfree, hfile, hsrc, hcomp]
  have hev : (store_genome a true st).1 = Except.ok (a.genomeRow st.catalog) ∧
      (store_genome a true st).2.genomes =
        fsWrite st.genomes (a.genomeRow st.catalog).filename (Bytes.gz b) ∧
      (store_genome a true st).2.catalog = st.catalog ++ [a.genomeRow st.catalog] := by
    cases hk : a.keep_src <;> simp [store_genome, hfs, hk]
  refine ⟨hcomp, hsuffix, hev.1, ?_, ?_⟩
  · rw [hev.2.1]
    exact lookup_fsWrite_self _ _ _
  · rw [hev.2.2]
    exact List.mem_append_right _ (List.mem_singleton_self _)

/-- Witness for C9 at the concrete demonstration import. -/
theorem c9_default_compression_gzip_witness :
    (demo_args.genomeRow demo_state.catalog).compression = some "gzip".toList ∧
    ".gz".toList <:+ (demo_args.genomeRow demo_state.catalog).filename ∧
    (store_genome demo_args true demo_state).1 =
      Except.ok (demo_args.genomeRow demo_state.catalog) ∧
    List.lookup (demo_args.genomeRow demo_state.catalog).filename
      (store_genome demo_args true demo_state).2.genomes =
      some (Bytes.gz (Bytes.plain [1, 2])) ∧
    (demo_args.genomeRow demo_state.catalog) ∈ (store_genome demo_args true demo_state).2.catalog :=
  c9_default_compression_gzip demo_args demo_state (Bytes.plain [1, 2]) rfl rfl
    (by decide) (by decide)
